import Mathlib

/-!
Verification of the solitui game-state engine (src/main.rs).

The engine is shallowly embedded: the mutable Rust structures become
immutable Lean structures, every in-place mutation becomes a functional
update, and every operation that can panic in Rust (an unwrap on an empty
pile, an out-of-range index) is modelled in the Option monad, with the
value none standing for a panic.  Machine integers (u8, usize) are
modelled as Nat: the only arithmetic the engine performs on card fields
is the comparison last.number == card.number + 1, and every card number
occurring in the game is below 13, far from the u8 overflow boundary,
so no modular reduction is needed.
-/

/-- Mirrors struct Card of src/main.rs: suit and number are u8 values,
hidden and selected are the two mutable flags. -/
structure Card where
  suit : Nat
  number : Nat
  hidden : Bool
  selected : Bool
deriving DecidableEq, Repr

/-- Mirrors Card::color: self.suit % 2. -/
def Card.color (c : Card) : Nat := c.suit % 2

/-- Mirrors Card::DECK: 52 cards with number = i / 4 and suit = i % 4,
all hidden, none selected. -/
def Card.DECK : List Card :=
  (List.range 52).map fun i =>
    { suit := i % 4, number := i / 4, hidden := true, selected := false }

/-- Mirrors enum SelectedPos of src/main.rs. -/
inductive SelectedPos where
  | none
  | discard
  | suitPile (n : Nat)
  | column (x y : Nat)
deriving DecidableEq, Repr

/-- Mirrors struct App of src/main.rs.  The Column and Pile newtypes are
inlined as lists (top of a pile = last element, as in the Vec-based
source).  The exit flag and the cosmetic debug string are presentation
state and are not part of the model. -/
structure App where
  rows : List (List Card)
  stock : List Card
  discard : List Card
  suit_piles : List (List Card)
  selected_pos : SelectedPos
deriving DecidableEq, Repr

/-- Body of App::validate_suit once the pile has been fetched:
empty pile accepts anything, otherwise the top suit must match. -/
def validateSuitPile (pile : List Card) (card : Card) : Bool :=
  match pile.getLast? with
  | some last => last.suit == card.suit
  | none => true

/-- Body of App::validate_col once the column has been fetched:
empty column demands a King (number 12), otherwise opposite color and
top.number = card.number + 1. -/
def validateColPile (col : List Card) (card : Card) : Bool :=
  match col.getLast? with
  | some last => last.color != card.color && last.number == card.number + 1
  | none => card.number == 12

/-- Mirrors App::validate_suit; none models the panic of an
out-of-range index self.suit_piles[pile_n]. -/
def App.validate_suit (s : App) (n : Nat) (card : Card) : Option Bool :=
  (s.suit_piles[n]?).map fun pile => validateSuitPile pile card

/-- Mirrors App::validate_col; none models the panic of an
out-of-range index self.rows[col_n]. -/
def App.validate_col (s : App) (x : Nat) (card : Card) : Option Bool :=
  (s.rows[x]?).map fun col => validateColPile col card

/-- Mirrors the reveal idiom of App::handle_move:
if let Some(card) = column.last_mut() then card.hidden = false. -/
def revealTop (l : List Card) : List Card :=
  match l.getLast? with
  | none => l
  | some c => l.dropLast ++ [{ c with hidden := false }]

/-- Mirrors res.rows[i].0[i].hidden = false in App::init: clear the
hidden flag of the card at index i (identity when out of range; in
App::init the index is always in range). -/
def unhideAt (i : Nat) (l : List Card) : List Card :=
  match l[i]? with
  | none => l
  | some c => l.set i { c with hidden := false }

/-- Mirrors the dealing loop of App::init: k remaining columns, the next
column receives i + 1 cards off the front of the shuffled deck and its
card at index i (its last card) is turned face-up; returns the columns
and the leftover deck. -/
def deal : Nat → Nat → List Card → List (List Card) × List Card
  | 0, _, deck => ([], deck)
  | k + 1, i, deck =>
    let rest := deal k (i + 1) (deck.drop (i + 1))
    (unhideAt i (deck.take (i + 1)) :: rest.1, rest.2)

/-- Mirrors App::init for a given shuffled deck: the shuffle itself
(choose_multiple over the whole of Card::DECK) produces an arbitrary
permutation of Card::DECK, so theorems quantify over any deck that is a
permutation of Card::DECK. -/
def App.initWith (deck : List Card) : App :=
  { rows := (deal 8 0 deck).1
    stock := (deal 8 0 deck).2
    discard := []
    suit_piles := [[], [], [], []]
    selected_pos := .none }

/-- Mirrors the draw action (key d, and the stock band of
App::get_selected_pos): pop the stock, flip the card face-up, push it on
the discard pile; no-op when the stock is empty. -/
def App.draw (s : App) : App :=
  match s.stock.getLast? with
  | some card =>
    { s with stock := s.stock.dropLast
             discard := s.discard ++ [{ card with hidden := false }] }
  | none => s

/-- Mirrors App::get_selected_pos.  The method takes &mut self because
the stock band performs the draw as a side effect, so the model returns
the resolved position together with the successor state; none models the
panic of an out-of-range pile index (never reached when rows has its 8
columns). -/
def App.get_selected_pos (s : App) (x y : Nat) : Option (SelectedPos × App) :=
  if x ≤ 39 then
    match s.rows[x / 5]? with
    | none => none
    | some col =>
      if col.length = 0 then some (.column (x / 5) 0, s)
      else if y / 2 ≥ col.length then some (.column (x / 5) (col.length - 1), s)
      else
        match col[y / 2]? with
        | none => none
        | some card =>
          if card.hidden then some (.column (x / 5) 0, s)
          else some (.column (x / 5) (y / 2), s)
  else if 41 ≤ x ∧ x < 46 then
    if y < 5 then
      match s.stock.getLast? with
      | some card =>
        some (.discard,
          { s with stock := s.stock.dropLast
                   discard := s.discard ++ [{ card with hidden := false }] })
      | none => some (.none, s)
    else if y < 10 then
      if s.discard.length = 0 then some (.none, s) else some (.discard, s)
    else if y < 30 then
      some (.suitPile (y / 5 - 2), s)
    else
      some (.none, s)
  else
    some (.none, s)

/-- Mirrors App::handle_move, with dest the freshly resolved position and
the stored selected_pos as source.  none models a panic: the unwraps on
discard/column tops and the direct indexing self.rows[x].0[y] of the
source.  Where the source calls self.validate_suit / self.validate_col,
the model first fetches the indexed pile (the indexing is what the Rust
call performs first) and then applies the pure validator body. -/
def App.handle_move (s : App) (dest : SelectedPos) : Option App :=
  match dest with
  | .none => some s
  | .discard => some s
  | .suitPile n =>
    match s.selected_pos with
    | .discard =>
      match s.discard.getLast?, s.suit_piles[n]? with
      | some card, some pile =>
        if validateSuitPile pile card then
          some { s with discard := s.discard.dropLast
                        suit_piles := s.suit_piles.set n (pile ++ [card]) }
        else some s
      | _, _ => none
    | .column x y =>
      match s.rows[x]? with
      | some col =>
        if col.length = 0 ∨ col.length > y + 1 then some s
        else
          match col[y]?, s.suit_piles[n]? with
          | some card, some pile =>
            if validateSuitPile pile card then
              match col.getLast? with
              | some c =>
                some { s with rows := s.rows.set x (revealTop col.dropLast)
                              suit_piles := s.suit_piles.set n (pile ++ [c]) }
              | none => none
            else some s
          | _, _ => none
      | none => none
    | _ => some s
  | .column x _ =>
    match s.selected_pos with
    | .none => some s
    | .discard =>
      match s.discard.getLast?, s.rows[x]? with
      | some card, some col =>
        if validateColPile col card then
          some { s with discard := s.discard.dropLast
                        rows := s.rows.set x (col ++ [card]) }
        else some s
      | _, _ => none
    | .suitPile m =>
      match s.suit_piles[m]? with
      | some pile =>
        match pile.getLast? with
        | some card =>
          match s.rows[x]? with
          | some col =>
            if validateColPile col card then
              some { s with suit_piles := s.suit_piles.set m pile.dropLast
                            rows := s.rows.set x (col ++ [card]) }
            else some s
          | none => none
        | none => some s
      | none => none
    | .column sx sy =>
      if sx = x then some s
      else
        match s.rows[sx]? with
        | some scol =>
          if scol.length = 0 then some s
          else
            match scol[sy]? with
            | some card =>
              match s.rows[x]? with
              | some dcol =>
                if validateColPile dcol card then
                  some { s with rows := ((s.rows.set x (dcol ++ scol.drop sy)).set sx (revealTop (scol.take sy))) }
                else some s
              | none => none
            | none => none
        | none => none

/-- Identity of a card: the (suit, number) pair, ignoring the two
mutable flags. -/
def cardId (c : Card) : Nat × Nat := (c.suit, c.number)

/-- All cards of the game state, in pile order. -/
def App.allCards (s : App) : List Card :=
  s.rows.flatten ++ s.stock ++ s.discard ++ s.suit_piles.flatten

/-- The multiset of card identities across the whole game state. -/
def App.cardIds (s : App) : Multiset (Nat × Nat) :=
  (s.allCards.map cardId : List (Nat × Nat))

/-- The canonical 52-card identity multiset. -/
def canonicalIds : Multiset (Nat × Nat) :=
  (Card.DECK.map cardId : List (Nat × Nat))

/-- Number of cards of a given identity in a list of cards. -/
def idCount (l : List Card) (p : Nat × Nat) : Nat :=
  (l.map cardId).count p

/-- All cards of a pile share one suit. -/
def SuitUniform (pile : List Card) : Prop :=
  ∀ c ∈ pile, ∀ c' ∈ pile, c.suit = c'.suit

/-- Validity of a resolved position with respect to a state: exactly the
facts the move engine relies on for its unwraps and indexing. -/
def PosOk (s : App) (p : SelectedPos) : Prop :=
  match p with
  | .none => True
  | .discard => s.discard ≠ []
  | .suitPile n => n < 4
  | .column x y => ∃ col, s.rows[x]? = some col ∧ (y = 0 ∨ y < col.length)

/-- The reachable-state invariant: the fixed pile counts, validity of the
stored selection, and suit-uniformity of every foundation. -/
structure EngineInv (s : App) : Prop where
  rows_len : s.rows.length = 8
  piles_len : s.suit_piles.length = 4
  sel : PosOk s s.selected_pos
  uniform : ∀ pile ∈ s.suit_piles, SuitUniform pile

/-- One observable state transition of the event loop (App::handle_events):
the key c clears the selection, the key d draws, and a left-button mouse
release resolves a position (possibly drawing from the stock), feeds it to
the move engine, and stores it as the new selection.  A click step exists
only when the move engine returns normally. -/
inductive Step : App → App → Prop where
  | keyC (s : App) : Step s { s with selected_pos := .none }
  | keyD (s : App) : Step s s.draw
  | click (s : App) (x y : Nat) (pos : SelectedPos) (s' t : App) :
      s.get_selected_pos x y = some (pos, s') →
      s'.handle_move pos = some t →
      Step s { t with selected_pos := pos }

/-- States reachable from the initial deal of any shuffle. -/
inductive Reachable : App → Prop where
  | init (deck : List Card) : deck.Perm Card.DECK → Reachable (App.initWith deck)
  | step {s t : App} : Reachable s → Step s t → Reachable t

/-- Number of cards the dealing loop consumes: k columns starting at
column size i + 1. -/
def consumed : Nat → Nat → Nat
  | 0, _ => 0
  | k + 1, i => (i + 1) + consumed k (i + 1)

/-- Shape of an accepted discard-to-foundation move. -/
def MoveD2S (s : App) (dest : SelectedPos) (t : App) : Prop :=
  ∃ n card pile, dest = .suitPile n ∧ s.selected_pos = .discard ∧
    s.discard.getLast? = some card ∧ s.suit_piles[n]? = some pile ∧
    validateSuitPile pile card = true ∧
    t = { s with discard := s.discard.dropLast
                 suit_piles := s.suit_piles.set n (pile ++ [card]) }

/-- Shape of an accepted column-to-foundation move. -/
def MoveC2S (s : App) (dest : SelectedPos) (t : App) : Prop :=
  ∃ n x y col pile c, dest = .suitPile n ∧ s.selected_pos = .column x y ∧
    s.rows[x]? = some col ∧ col.length = y + 1 ∧ col.getLast? = some c ∧
    s.suit_piles[n]? = some pile ∧ validateSuitPile pile c = true ∧
    t = { s with rows := s.rows.set x (revealTop col.dropLast)
                 suit_piles := s.suit_piles.set n (pile ++ [c]) }

/-- Shape of an accepted discard-to-column move. -/
def MoveD2C (s : App) (dest : SelectedPos) (t : App) : Prop :=
  ∃ x y card col, dest = .column x y ∧ s.selected_pos = .discard ∧
    s.discard.getLast? = some card ∧ s.rows[x]? = some col ∧
    validateColPile col card = true ∧
    t = { s with discard := s.discard.dropLast
                 rows := s.rows.set x (col ++ [card]) }

/-- Shape of an accepted foundation-to-column move. -/
def MoveS2C (s : App) (dest : SelectedPos) (t : App) : Prop :=
  ∃ x y m pile card col, dest = .column x y ∧ s.selected_pos = .suitPile m ∧
    s.suit_piles[m]? = some pile ∧ pile.getLast? = some card ∧
    s.rows[x]? = some col ∧ validateColPile col card = true ∧
    t = { s with suit_piles := s.suit_piles.set m pile.dropLast
                 rows := s.rows.set x (col ++ [card]) }

/-- Shape of an accepted column-to-column move (a drain of the source
column from the stored index to its top). -/
def MoveC2C (s : App) (dest : SelectedPos) (t : App) : Prop :=
  ∃ x y sx sy scol card dcol, dest = .column x y ∧ s.selected_pos = .column sx sy ∧
    sx ≠ x ∧ s.rows[sx]? = some scol ∧ scol ≠ [] ∧ scol[sy]? = some card ∧
    s.rows[x]? = some dcol ∧ validateColPile dcol card = true ∧
    t = { s with rows := ((s.rows.set x (dcol ++ scol.drop sy)).set sx (revealTop (scol.take sy))) }

/-- The deal-shape property as the code realises it: column i holds
i + 1 cards with exactly the card at index i (the top) face-up, the
stock holds the 16 undealt cards, all face-down, and the discard pile
and the four foundations are empty. -/
def DealShape (s : App) : Prop :=
  s.rows.length = 8 ∧
  (∀ i col, s.rows[i]? = some col →
      col.length = i + 1 ∧ ∀ j c, col[j]? = some c → (c.hidden = true ↔ j ≠ i)) ∧
  s.stock.length = 16 ∧ (∀ c ∈ s.stock, c.hidden = true) ∧
  s.discard = [] ∧ s.suit_piles = [[], [], [], []]

/-- The king of suit 3, face-up: the card drawn first from the
unshuffled deck (Card.DECK[51]). -/
def cardKD : Card := { suit := 3, number := 12, hidden := false, selected := false }

/-- A second card of suit 3, used to exercise the foundation rule. -/
def cardQD : Card := { suit := 3, number := 11, hidden := false, selected := false }

/-- Initial state dealt from the identity shuffle. -/
def sInit : App := App.initWith Card.DECK

/-- sInit after one draw (key d). -/
def sDrawn : App := sInit.draw

/-- sDrawn after clicking the discard band (selects the discard). -/
def sSel : App := { sDrawn with selected_pos := .discard }

/-- sSel after clicking foundation 0: the drawn king seeds foundation 0. -/
def sFound : App :=
  { sSel with discard := []
              suit_piles := [[cardKD], [], [], []]
              selected_pos := .suitPile 0 }

/-- Card.DECK[5] (suit 1, number 1), moved to the front of the shuffle
used for the face-down-transfer scenario. -/
def cardX : Card := { suit := 1, number := 1, hidden := true, selected := false }

/-- The same card after the deal turns it face-up as top of column 0. -/
def cardTwoH : Card := { suit := 1, number := 1, hidden := false, selected := false }

/-- Card.DECK[0] (suit 0, number 0): dealt face-down at the bottom of
column 1 in the face-down-transfer scenario. -/
def hiddenAce : Card := { suit := 0, number := 0, hidden := true, selected := false }

/-- Card.DECK[1] (suit 1, number 0), face-up as top of column 1. -/
def cardAceV : Card := { suit := 1, number := 0, hidden := false, selected := false }

/-- The Card.DECK[0] card with its hidden flag cleared. -/
def visAce : Card := { suit := 0, number := 0, hidden := false, selected := false }

/-- The shuffle for the face-down-transfer scenario: Card.DECK with its
element at index 5 moved to the front. -/
def deckX : List Card := cardX :: (Card.DECK.take 5 ++ Card.DECK.drop 6)

/-- Initial state of the face-down-transfer scenario: column 0 is the
face-up (suit 1, number 1) card, column 1 is the face-down (suit 0,
number 0) card under the face-up (suit 1, number 0) card. -/
def sX0 : App := App.initWith deckX

/-- sX0 after clicking the face-down card of column 1: the resolver
clamps to index 0, which is itself face-down. -/
def sX1 : App := { sX0 with selected_pos := .column 1 0 }

/-- Result of then clicking column 0: the whole of column 1, including
its face-down bottom card, is drained onto column 0. -/
def sX2t : App :=
  { sX1 with rows := (sX1.rows.set 0 [cardTwoH, hiddenAce, cardAceV]).set 1 [] }

/-- sX2t with the new selection stored. -/
def sX2 : App := { sX2t with selected_pos := .column 0 0 }

/-- Small fixture for the column-placement rule: one column holding a
face-up king of suit 1. -/
def cardK1 : Card := { suit := 1, number := 12, hidden := false, selected := false }

/-- A face-up queen of suit 0, opposite color to cardK1. -/
def cardQ0 : Card := { suit := 0, number := 11, hidden := false, selected := false }

/-- Fixture state for the column-placement witness. -/
def W4 : App :=
  { rows := [[cardK1]], stock := [], discard := [], suit_piles := []
    selected_pos := .none }

/-- Fixture state for the column-to-foundation witness: one single-card
column selected at its top, one empty foundation. -/
def W8 : App :=
  { rows := [[visAce]], stock := [], discard := [], suit_piles := [[]]
    selected_pos := .column 0 0 }

/-- Fixture state for the resolver-clamp witness: column 0 starts with a
face-down card. -/
def W9 : App :=
  { rows := [[hiddenAce]], stock := [], discard := [], suit_piles := []
    selected_pos := .none }

/-- Fixture state for the reveal witness: a two-card column, face-down
under face-up, selected at its top, next to an empty foundation. -/
def W7 : App :=
  { rows := [[hiddenAce, cardAceV]], stock := [], discard := [], suit_piles := [[]]
    selected_pos := .column 0 1 }

/-- Result of the accepted column-to-foundation move out of W7: the
remaining card is revealed. -/
def W7t : App := { W7 with rows := [[visAce]], suit_piles := [[cardAceV]] }

/-! ### List utilities -/

lemma getLast?_decomp {α : Type} (l : List α) (c : α) (h : l.getLast? = some c) :
    l = l.dropLast ++ [c] := by
  induction l with
  | nil => simp at h
  | cons a t ih =>
    cases t with
    | nil => simp_all
    | cons b t' =>
      rw [List.getLast?_cons_cons] at h
      have h2 := ih h
      simpa [List.dropLast] using h2

lemma mem_of_getLast?_eq {α : Type} {l : List α} {c : α} (h : l.getLast? = some c) :
    c ∈ l := by
  rw [getLast?_decomp l c h]
  simp

lemma exists_getLast?_of_ne_nil {α : Type} {l : List α} (h : l ≠ []) :
    ∃ c, l.getLast? = some c := by
  cases hl : l.getLast? with
  | none => exact absurd (List.getLast?_eq_none_iff.mp hl) h
  | some c => exact ⟨c, rfl⟩

lemma getElem?_eq_getLast?_of_length {α : Type} (l : List α) (y : Nat)
    (h : l.length = y + 1) : l[y]? = l.getLast? := by
  rw [List.getLast?_eq_getElem?, h]
  simp

/-! ### Identity counting -/

lemma idCount_nil (p : Nat × Nat) : idCount [] p = 0 := rfl

lemma idCount_append (l₁ l₂ : List Card) (p : Nat × Nat) :
    idCount (l₁ ++ l₂) p = idCount l₁ p + idCount l₂ p := by
  simp [idCount, List.count_append]

lemma cardId_unhide (c : Card) : cardId { c with hidden := false } = cardId c := rfl

lemma idCount_single_unhide (c : Card) (p : Nat × Nat) :
    idCount [{ c with hidden := false }] p = idCount [c] p := rfl

lemma idCount_revealTop (l : List Card) (p : Nat × Nat) :
    idCount (revealTop l) p = idCount l p := by
  unfold revealTop
  cases h : l.getLast? with
  | none => rfl
  | some c =>
    conv_rhs => rw [getLast?_decomp l c h]
    rw [idCount_append, idCount_append, idCount_single_unhide]

lemma idCount_set (l : List Card) (i : Nat) (c c' : Card) (h : l[i]? = some c)
    (hid : cardId c' = cardId c) (p : Nat × Nat) :
    idCount (l.set i c') p = idCount l p := by
  induction l generalizing i with
  | nil => simp at h
  | cons a t ih =>
    cases i with
    | zero =>
      rw [List.getElem?_cons_zero] at h
      injection h with h
      subst h
      simp [idCount, List.count_cons, hid]
    | succ n =>
      rw [List.getElem?_cons_succ] at h
      rw [List.set_cons_succ]
      simp only [idCount, List.map_cons, List.count_cons] at *
      rw [ih n h]

lemma idCount_unhideAt (i : Nat) (l : List Card) (p : Nat × Nat) :
    idCount (unhideAt i l) p = idCount l p := by
  unfold unhideAt
  cases h : l[i]? with
  | none => rfl
  | some c => exact idCount_set l i c { c with hidden := false } h rfl p

lemma idCount_flatten_set (L : List (List Card)) (x : Nat) (col col' : List Card)
    (h : L[x]? = some col) (p : Nat × Nat) :
    idCount (L.set x col').flatten p + idCount col p
      = idCount L.flatten p + idCount col' p := by
  induction L generalizing x with
  | nil => simp at h
  | cons a t ih =>
    cases x with
    | zero =>
      rw [List.getElem?_cons_zero] at h
      injection h with h
      subst h
      rw [List.set_cons_zero]
      simp only [List.flatten_cons, idCount_append]
      omega
    | succ n =>
      rw [List.getElem?_cons_succ] at h
      rw [List.set_cons_succ]
      simp only [List.flatten_cons, idCount_append]
      have h2 := ih n h
      omega

lemma getLast?_dropLast_append {α : Type} (l : List α) (c : α)
    (h : l.getLast? = some c) : l.dropLast ++ [c] = l :=
  (getLast?_decomp l c h).symm

/-! ### Dealing lemmas -/

lemma deal_fst_length (k i : Nat) (deck : List Card) :
    (deal k i deck).1.length = k := by
  induction k generalizing i deck with
  | zero => rfl
  | succ k ih => simp [deal, ih]

lemma deal_snd (k i : Nat) (deck : List Card) :
    (deal k i deck).2 = deck.drop (consumed k i) := by
  induction k generalizing i deck with
  | zero => rfl
  | succ k ih =>
    simp only [deal, consumed, ih, List.drop_drop]

lemma deal_ids (k i : Nat) (deck : List Card) (p : Nat × Nat) :
    idCount (deal k i deck).1.flatten p + idCount (deal k i deck).2 p
      = idCount deck p := by
  induction k generalizing i deck with
  | zero => simp [deal, idCount_nil]
  | succ k ih =>
    simp only [deal, List.flatten_cons, idCount_append]
    have h1 := ih (i + 1) (deck.drop (i + 1))
    have h2 : idCount (deck.take (i + 1)) p + idCount (deck.drop (i + 1)) p
        = idCount deck p := by
      rw [← idCount_append, List.take_append_drop]
    rw [idCount_unhideAt]
    omega

lemma unhideAt_length (i : Nat) (l : List Card) :
    (unhideAt i l).length = l.length := by
  unfold unhideAt
  cases h : l[i]? with
  | none => rfl
  | some c => simp [List.length_set]

lemma unhideAt_getElem? (l : List Card) (i m : Nat) :
    (unhideAt i l)[m]? =
      if m = i then (l[i]?).map (fun c => { c with hidden := false })
      else l[m]? := by
  unfold unhideAt
  cases h : l[i]? with
  | none =>
    by_cases hm : m = i
    · subst hm; simp [h]
    · simp [hm]
  | some c =>
    by_cases hm : m = i
    · subst hm
      have hlt : m < l.length := (List.getElem?_eq_some_iff.mp h).1
      simp [List.getElem?_set_self hlt]
    · rw [if_neg hm, List.getElem?_set_ne (fun hh => hm hh.symm)]

lemma deal_cols (k i : Nat) (deck : List Card)
    (hhid : ∀ c ∈ deck, c.hidden = true)
    (hlen : consumed k i ≤ deck.length) :
    ∀ j col, (deal k i deck).1[j]? = some col →
      col.length = i + j + 1 ∧
        ∀ m c, col[m]? = some c → (c.hidden = true ↔ m ≠ i + j) := by
  induction k generalizing i deck with
  | zero => intro j col h; simp [deal] at h
  | succ k ih =>
    intro j col h
    simp only [deal] at h
    cases j with
    | zero =>
      rw [List.getElem?_cons_zero] at h
      injection h with h
      subst h
      have hi1 : i + 1 ≤ deck.length := by
        simp only [consumed] at hlen; omega
      constructor
      · rw [unhideAt_length, List.length_take]
        omega
      · intro m c hm
        rw [unhideAt_getElem?] at hm
        by_cases hmi : m = i
        · subst hmi
          rw [if_pos rfl] at hm
          cases h0 : (deck.take (m + 1))[m]? with
          | none => rw [h0] at hm; simp at hm
          | some c0 =>
            rw [h0] at hm
            simp only [Option.map_some'] at hm
            injection hm with hm
            subst hm
            simp
        · rw [if_neg hmi] at hm
          have hmem : c ∈ deck := List.take_subset _ _ ((List.getElem?_eq_some_iff.mp hm).2 ▸ List.getElem_mem _)
          rw [hhid c hmem]
          simp [hmi]
    | succ j =>
      rw [List.getElem?_cons_succ] at h
      have hh : ∀ c ∈ deck.drop (i + 1), c.hidden = true :=
        fun c hc => hhid c (List.drop_subset _ _ hc)
      have hl : consumed k (i + 1) ≤ (deck.drop (i + 1)).length := by
        simp only [consumed] at hlen
        rw [List.length_drop]
        omega
      have hres := ih (i + 1) (deck.drop (i + 1)) hh hl j col h
      have harith : i + 1 + j = i + (j + 1) := by omega
      constructor
      · omega
      · intro m c hm
        have h2 := hres.2 m c hm
        rw [harith] at h2
        exact h2

lemma deck_length : Card.DECK.length = 52 := by decide

lemma deck_hidden : ∀ c ∈ Card.DECK, c.hidden = true := by decide

lemma consumed_eight : consumed 8 0 = 36 := by decide

lemma initWith_dealShape (deck : List Card) (h : deck.Perm Card.DECK) :
    DealShape (App.initWith deck) := by
  have hlen : deck.length = 52 := h.length_eq.trans deck_length
  have hhid : ∀ c ∈ deck, c.hidden = true :=
    fun c hc => deck_hidden c (h.mem_iff.mp hc)
  have hcons : consumed 8 0 ≤ deck.length := by rw [consumed_eight, hlen]; omega
  refine ⟨deal_fst_length 8 0 deck, ?_, ?_, ?_, rfl, rfl⟩
  · intro i col hcol
    have hres := deal_cols 8 0 deck hhid hcons i col hcol
    constructor
    · omega
    · intro j c hj
      have h2 := hres.2 j c hj
      have : (0 : Nat) + i = i := by omega
      rw [this] at h2
      exact h2
  · show (deal 8 0 deck).2.length = 16
    rw [deal_snd, consumed_eight, List.length_drop, hlen]
  · show ∀ c ∈ (deal 8 0 deck).2, c.hidden = true
    rw [deal_snd]
    exact fun c hc => hhid c (List.drop_subset _ _ hc)

/-! ### Characterisation of the move engine -/

lemma handle_move_cases (s : App) (dest : SelectedPos) (t : App)
    (h : s.handle_move dest = some t) :
    t = s ∨ MoveD2S s dest t ∨ MoveC2S s dest t ∨ MoveD2C s dest t ∨
      MoveS2C s dest t ∨ MoveC2C s dest t := by
  cases dest with
  | none => left; injection h with h; exact h.symm
  | discard => left; injection h with h; exact h.symm
  | suitPile n =>
    cases hsrc : s.selected_pos with
    | none =>
      simp only [App.handle_move, hsrc] at h
      left; injection h with h; exact h.symm
    | suitPile m =>
      simp only [App.handle_move, hsrc] at h
      left; injection h with h; exact h.symm
    | discard =>
      cases hd : s.discard.getLast? with
      | none =>
        cases hp : s.suit_piles[n]? <;>
          simp only [App.handle_move, hsrc, hd, hp] at h <;>
          exact Option.noConfusion h
      | some card =>
        cases hp : s.suit_piles[n]? with
        | none =>
          simp only [App.handle_move, hsrc, hd, hp] at h
          exact Option.noConfusion h
        | some pile =>
          simp only [App.handle_move, hsrc, hd, hp] at h
          by_cases hv : validateSuitPile pile card = true
          · rw [if_pos hv] at h
            injection h with h
            exact Or.inr (Or.inl ⟨n, card, pile, rfl, hsrc, hd, hp, hv, by rw [← h, hsrc]⟩)
          · rw [if_neg hv] at h
            left; injection h with h; exact h.symm
    | column x y =>
      cases hc : s.rows[x]? with
      | none =>
        simp only [App.handle_move, hsrc, hc] at h
        exact Option.noConfusion h
      | some col =>
        simp only [App.handle_move, hsrc, hc] at h
        by_cases hg : col.length = 0 ∨ col.length > y + 1
        · rw [if_pos hg] at h
          left; injection h with h; exact h.symm
        · rw [if_neg hg] at h
          cases hy : col[y]? with
          | none =>
            cases hp : s.suit_piles[n]? <;> simp only [hy, hp] at h <;>
              exact Option.noConfusion h
          | some card =>
            cases hp : s.suit_piles[n]? with
            | none =>
              simp only [hy, hp] at h
              exact Option.noConfusion h
            | some pile =>
              simp only [hy, hp] at h
              by_cases hv : validateSuitPile pile card = true
              · rw [if_pos hv] at h
                have hne : col ≠ [] := by
                  intro hnil; subst hnil; simp at hy
                obtain ⟨c, hlast⟩ := exists_getLast?_of_ne_nil hne
                rw [hlast] at h
                injection h with h
                have hylt : y < col.length := (List.getElem?_eq_some_iff.mp hy).1
                have hlen : col.length = y + 1 := by omega
                have hcard : card = c := by
                  rw [getElem?_eq_getLast?_of_length col y hlen, hlast] at hy
                  injection hy with hy; exact hy.symm
                refine Or.inr (Or.inr (Or.inl
                  ⟨n, x, y, col, pile, c, rfl, hsrc, hc, hlen, hlast, hp, ?_, by rw [← h, hsrc]⟩))
                rw [← hcard]; exact hv
              · rw [if_neg hv] at h
                left; injection h with h; exact h.symm
  | column x ydest =>
    cases hsrc : s.selected_pos with
    | none =>
      simp only [App.handle_move, hsrc] at h
      left; injection h with h; exact h.symm
    | discard =>
      cases hd : s.discard.getLast? with
      | none =>
        cases hc : s.rows[x]? <;> simp only [App.handle_move, hsrc, hd, hc] at h <;>
          exact Option.noConfusion h
      | some card =>
        cases hc : s.rows[x]? with
        | none =>
          simp only [App.handle_move, hsrc, hd, hc] at h
          exact Option.noConfusion h
        | some col =>
          simp only [App.handle_move, hsrc, hd, hc] at h
          by_cases hv : validateColPile col card = true
          · rw [if_pos hv] at h
            injection h with h
            exact Or.inr (Or.inr (Or.inr (Or.inl
              ⟨x, ydest, card, col, rfl, hsrc, hd, hc, hv, by rw [← h, hsrc]⟩)))
          · rw [if_neg hv] at h
            left; injection h with h; exact h.symm
    | suitPile m =>
      cases hm : s.suit_piles[m]? with
      | none =>
        simp only [App.handle_move, hsrc, hm] at h
        exact Option.noConfusion h
      | some pile =>
        cases hl : pile.getLast? with
        | none =>
          simp only [App.handle_move, hsrc, hm, hl] at h
          left; injection h with h; exact h.symm
        | some card =>
          cases hc : s.rows[x]? with
          | none =>
            simp only [App.handle_move, hsrc, hm, hl, hc] at h
            exact Option.noConfusion h
          | some col =>
            simp only [App.handle_move, hsrc, hm, hl, hc] at h
            by_cases hv : validateColPile col card = true
            · rw [if_pos hv] at h
              injection h with h
              exact Or.inr (Or.inr (Or.inr (Or.inr (Or.inl
                ⟨x, ydest, m, pile, card, col, rfl, hsrc, hm, hl, hc, hv, by rw [← h, hsrc]⟩))))
            · rw [if_neg hv] at h
              left; injection h with h; exact h.symm
    | column sx sy =>
      by_cases hxx : sx = x
      · simp only [App.handle_move, hsrc, if_pos hxx] at h
        left; injection h with h; exact h.symm
      · simp only [App.handle_move, hsrc, if_neg hxx] at h
        cases hsc : s.rows[sx]? with
        | none =>
          simp only [hsc] at h
          exact Option.noConfusion h
        | some scol =>
          simp only [hsc] at h
          by_cases h0 : scol.length = 0
          · rw [if_pos h0] at h
            left; injection h with h; exact h.symm
          · rw [if_neg h0] at h
            cases hsy : scol[sy]? with
            | none =>
              simp only [hsy] at h
              exact Option.noConfusion h
            | some card =>
              cases hdc : s.rows[x]? with
              | none =>
                simp only [hsy, hdc] at h
                exact Option.noConfusion h
              | some dcol =>
                simp only [hsy, hdc] at h
                by_cases hv : validateColPile dcol card = true
                · rw [if_pos hv] at h
                  injection h with h
                  have hne : scol ≠ [] := by
                    intro hnil; subst hnil; simp at h0
                  exact Or.inr (Or.inr (Or.inr (Or.inr (Or.inr
                    ⟨x, ydest, sx, sy, scol, card, dcol, rfl, hsrc, hxx, hsc, hne, hsy, hdc, hv,
                      by rw [← h, hsrc]⟩))))
                · rw [if_neg hv] at h
                  left; injection h with h; exact h.symm

lemma handle_move_ids (s : App) (dest : SelectedPos) (t : App)
    (h : s.handle_move dest = some t) (p : Nat × Nat) :
    idCount t.allCards p = idCount s.allCards p := by
  rcases handle_move_cases s dest t h with ht | hm | hm | hm | hm | hm
  · subst ht; rfl
  · obtain ⟨n, card, pile, -, -, hd, hp, -, ht⟩ := hm
    subst ht
    have hdec := getLast?_decomp _ _ hd
    have hD : idCount s.discard p = idCount s.discard.dropLast p + idCount [card] p := by
      nth_rewrite 1 [hdec]
      rw [idCount_append]
    have hset := idCount_flatten_set s.suit_piles n pile (pile ++ [card]) hp p
    rw [idCount_append] at hset
    simp only [App.allCards, idCount_append]
    omega
  · obtain ⟨n, x, y, col, pile, c, -, -, hc, -, hlast, hp, -, ht⟩ := hm
    subst ht
    have hdec := getLast?_decomp _ _ hlast
    have hC : idCount col p = idCount col.dropLast p + idCount [c] p := by
      nth_rewrite 1 [hdec]
      rw [idCount_append]
    have hset1 := idCount_flatten_set s.rows x col (revealTop col.dropLast) hc p
    rw [idCount_revealTop] at hset1
    have hset2 := idCount_flatten_set s.suit_piles n pile (pile ++ [c]) hp p
    rw [idCount_append] at hset2
    simp only [App.allCards, idCount_append]
    omega
  · obtain ⟨x, y, card, col, -, -, hd, hc, -, ht⟩ := hm
    subst ht
    have hdec := getLast?_decomp _ _ hd
    have hD : idCount s.discard p = idCount s.discard.dropLast p + idCount [card] p := by
      nth_rewrite 1 [hdec]
      rw [idCount_append]
    have hset := idCount_flatten_set s.rows x col (col ++ [card]) hc p
    rw [idCount_append] at hset
    simp only [App.allCards, idCount_append]
    omega
  · obtain ⟨x, y, m, pile, card, col, -, -, hm', hl, hc, -, ht⟩ := hm
    subst ht
    have hdec := getLast?_decomp _ _ hl
    have hP : idCount pile p = idCount pile.dropLast p + idCount [card] p := by
      nth_rewrite 1 [hdec]
      rw [idCount_append]
    have hset1 := idCount_flatten_set s.suit_piles m pile pile.dropLast hm' p
    have hset2 := idCount_flatten_set s.rows x col (col ++ [card]) hc p
    rw [idCount_append] at hset2
    simp only [App.allCards, idCount_append]
    omega
  · obtain ⟨x, y, sx, sy, scol, card, dcol, -, -, hxx, hsc, -, -, hdc, -, ht⟩ := hm
    subst ht
    have hsc2 : (s.rows.set x (dcol ++ scol.drop sy))[sx]? = some scol := by
      rw [List.getElem?_set_ne (fun hh => hxx hh.symm)]
      exact hsc
    have hset1 := idCount_flatten_set (s.rows.set x (dcol ++ scol.drop sy)) sx scol
      (revealTop (scol.take sy)) hsc2 p
    rw [idCount_revealTop] at hset1
    have hset2 := idCount_flatten_set s.rows x dcol (dcol ++ scol.drop sy) hdc p
    rw [idCount_append] at hset2
    have hS : idCount scol p = idCount (scol.take sy) p + idCount (scol.drop sy) p := by
      have h2 := idCount_append (scol.take sy) (scol.drop sy) p
      rw [List.take_append_drop] at h2
      exact h2
    simp only [App.allCards, idCount_append]
    omega

lemma handle_move_frame (s : App) (dest : SelectedPos) (t : App)
    (h : s.handle_move dest = some t) :
    t.rows.length = s.rows.length ∧ t.suit_piles.length = s.suit_piles.length ∧
      t.stock = s.stock := by
  rcases handle_move_cases s dest t h with ht | hm | hm | hm | hm | hm
  · subst ht; exact ⟨rfl, rfl, rfl⟩
  · obtain ⟨n, card, pile, -, -, -, -, -, ht⟩ := hm
    subst ht; exact ⟨rfl, List.length_set .., rfl⟩
  · obtain ⟨n, x, y, col, pile, c, -, -, -, -, -, -, -, ht⟩ := hm
    subst ht; exact ⟨List.length_set .., List.length_set .., rfl⟩
  · obtain ⟨x, y, card, col, -, -, -, -, -, ht⟩ := hm
    subst ht; exact ⟨List.length_set .., rfl, rfl⟩
  · obtain ⟨x, y, m, pile, card, col, -, -, -, -, -, -, ht⟩ := hm
    subst ht; exact ⟨List.length_set .., List.length_set .., rfl⟩
  · obtain ⟨x, y, sx, sy, scol, card, dcol, -, -, -, -, -, -, -, -, ht⟩ := hm
    subst ht
    refine ⟨?_, rfl, rfl⟩
    rw [List.length_set, List.length_set]

lemma handle_move_col_grow (s : App) (x y : Nat) (t : App)
    (h : s.handle_move (.column x y) = some t) (col : List Card)
    (hc : s.rows[x]? = some col) :
    ∃ col', t.rows[x]? = some col' ∧ col.length ≤ col'.length := by
  have hxlt : x < s.rows.length := (List.getElem?_eq_some_iff.mp hc).1
  rcases handle_move_cases s (.column x y) t h with ht | hm | hm | hm | hm | hm
  · subst ht; exact ⟨col, hc, le_refl _⟩
  · obtain ⟨n, card, pile, hdest, -⟩ := hm
    exact absurd hdest (by simp)
  · obtain ⟨n, x', y', col', pile, c, hdest, -⟩ := hm
    exact absurd hdest (by simp)
  · obtain ⟨x', y', card, col', hdest, -, -, hc', -, ht⟩ := hm
    injection hdest with hx' hy'
    subst hx'
    subst ht
    rw [hc] at hc'
    injection hc' with hc'
    subst hc'
    refine ⟨col ++ [card], ?_, by simp⟩
    show (s.rows.set x (col ++ [card]))[x]? = some (col ++ [card])
    exact List.getElem?_set_self hxlt
  · obtain ⟨x', y', m, pile, card, col', hdest, -, -, -, hc', -, ht⟩ := hm
    injection hdest with hx' hy'
    subst hx'
    subst ht
    rw [hc] at hc'
    injection hc' with hc'
    subst hc'
    refine ⟨col ++ [card], ?_, by simp⟩
    show (s.rows.set x (col ++ [card]))[x]? = some (col ++ [card])
    exact List.getElem?_set_self hxlt
  · obtain ⟨x', y', sx, sy, scol, card, dcol, hdest, -, hxx, -, -, -, hdc, -, ht⟩ := hm
    injection hdest with hx' hy'
    subst hx'
    subst ht
    rw [hc] at hdc
    injection hdc with hdc
    subst hdc
    refine ⟨col ++ scol.drop sy, ?_, by simp⟩
    show ((s.rows.set x (col ++ scol.drop sy)).set sx (revealTop (scol.take sy)))[x]?
      = some (col ++ scol.drop sy)
    rw [List.getElem?_set_ne hxx]
    exact List.getElem?_set_self hxlt

lemma suitUniform_push (pile : List Card) (card : Card)
    (hu : SuitUniform pile) (hv : validateSuitPile pile card = true) :
    SuitUniform (pile ++ [card]) := by
  cases hl : pile.getLast? with
  | none =>
    have : pile = [] := List.getLast?_eq_none_iff.mp hl
    subst this
    intro c hc c' hc'
    simp at hc hc'
    rw [hc, hc']
  | some last =>
    simp only [validateSuitPile, hl, beq_iff_eq] at hv
    have hsuit : last.suit = card.suit := hv
    have hlastmem : last ∈ pile := mem_of_getLast?_eq hl
    intro c hc c' hc'
    rcases List.mem_append.mp hc with hc1 | hc1 <;>
      rcases List.mem_append.mp hc' with hc2 | hc2
    · exact hu c hc1 c' hc2
    · simp at hc2
      rw [hc2, ← hsuit]
      exact hu c hc1 last hlastmem
    · simp at hc1
      rw [hc1, ← hsuit]
      exact (hu c' hc2 last hlastmem).symm
    · simp at hc1 hc2
      rw [hc1, hc2]

lemma suitUniform_dropLast (pile : List Card) (hu : SuitUniform pile) :
    SuitUniform pile.dropLast := by
  intro c hc c' hc'
  exact hu c ((List.dropLast_sublist pile).subset hc)
    c' ((List.dropLast_sublist pile).subset hc')

lemma handle_move_uniform (s : App) (dest : SelectedPos) (t : App)
    (h : s.handle_move dest = some t)
    (hu : ∀ pile ∈ s.suit_piles, SuitUniform pile) :
    ∀ pile ∈ t.suit_piles, SuitUniform pile := by
  rcases handle_move_cases s dest t h with ht | hm | hm | hm | hm | hm
  · subst ht; exact hu
  · obtain ⟨n, card, pile, -, -, -, hp, hv, ht⟩ := hm
    subst ht
    intro q hq
    rcases List.mem_or_eq_of_mem_set hq with hq1 | hq1
    · exact hu q hq1
    · subst hq1
      exact suitUniform_push pile card
        (hu pile (List.getElem?_mem hp)) hv
  · obtain ⟨n, x, y, col, pile, c, -, -, -, -, -, hp, hv, ht⟩ := hm
    subst ht
    intro q hq
    rcases List.mem_or_eq_of_mem_set hq with hq1 | hq1
    · exact hu q hq1
    · subst hq1
      exact suitUniform_push pile c (hu pile (List.getElem?_mem hp)) hv
  · obtain ⟨x, y, card, col, -, -, -, -, -, ht⟩ := hm
    subst ht
    exact hu
  · obtain ⟨x, y, m, pile, card, col, -, -, hm', -, -, -, ht⟩ := hm
    subst ht
    intro q hq
    rcases List.mem_or_eq_of_mem_set hq with hq1 | hq1
    · exact hu q hq1
    · subst hq1
      exact suitUniform_dropLast pile (hu pile (List.getElem?_mem hm'))
  · obtain ⟨x, y, sx, sy, scol, card, dcol, -, -, -, -, -, -, -, -, ht⟩ := hm
    subst ht
    exact hu

lemma revealTop_getLast (l : List Card) (c : Card)
    (h : (revealTop l).getLast? = some c) : c.hidden = false := by
  unfold revealTop at h
  cases hl : l.getLast? with
  | none =>
    rw [hl] at h
    rw [hl] at h
    exact Option.noConfusion h
  | some c0 =>
    rw [hl, List.getLast?_concat] at h
    injection h with h
    rw [← h]

lemma draw_fields (s : App) :
    (s.draw).rows = s.rows ∧ (s.draw).suit_piles = s.suit_piles ∧
      (s.draw).selected_pos = s.selected_pos ∧
      (s.discard ≠ [] → (s.draw).discard ≠ []) := by
  unfold App.draw
  cases h : s.stock.getLast? with
  | none => exact ⟨rfl, rfl, rfl, fun hh => hh⟩
  | some c =>
    refine ⟨rfl, rfl, rfl, fun hh => ?_⟩
    simp

lemma draw_ids (s : App) (p : Nat × Nat) :
    idCount (s.draw).allCards p = idCount s.allCards p := by
  unfold App.draw
  cases h : s.stock.getLast? with
  | none => rfl
  | some c =>
    have hdec := getLast?_decomp _ _ h
    have hSt : idCount s.stock p = idCount s.stock.dropLast p + idCount [c] p := by
      nth_rewrite 1 [hdec]
      rw [idCount_append]
    simp only [App.allCards, idCount_append, idCount_single_unhide]
    omega

lemma posOk_draw (s : App) (p : SelectedPos) (h : PosOk s p) : PosOk s.draw p := by
  cases p with
  | none => trivial
  | discard =>
    simp only [PosOk] at h ⊢
    exact (draw_fields s).2.2.2 h
  | suitPile n => exact h
  | column x y =>
    simp only [PosOk] at h ⊢
    obtain ⟨col, hc, hy⟩ := h
    exact ⟨col, by rw [(draw_fields s).1]; exact hc, hy⟩

lemma inv_draw (s : App) (h : EngineInv s) : EngineInv s.draw := by
  constructor
  · rw [(draw_fields s).1]; exact h.rows_len
  · rw [(draw_fields s).2.1]; exact h.piles_len
  · rw [(draw_fields s).2.2.1]; exact posOk_draw s _ h.sel
  · rw [(draw_fields s).2.1]; exact h.uniform

lemma get_selected_pos_char (s : App) (x y : Nat) (pos : SelectedPos) (s' : App)
    (h : s.get_selected_pos x y = some (pos, s')) :
    (s' = s ∨ s' = s.draw) ∧ s'.selected_pos = s.selected_pos ∧
      s'.rows = s.rows ∧ s'.suit_piles = s.suit_piles ∧ PosOk s' pos := by
  unfold App.get_selected_pos at h
  by_cases h39 : x ≤ 39
  · rw [if_pos h39] at h
    cases hc : s.rows[x / 5]? with
    | none => rw [hc] at h; exact Option.noConfusion h
    | some col =>
      simp only [hc] at h
      by_cases h0 : col.length = 0
      · rw [if_pos h0] at h
        injection h with h
        injection h with h1 h2
        subst h1; subst h2
        exact ⟨Or.inl rfl, rfl, rfl, rfl, ⟨col, hc, Or.inl rfl⟩⟩
      · rw [if_neg h0] at h
        by_cases hge : y / 2 ≥ col.length
        · rw [if_pos hge] at h
          injection h with h
          injection h with h1 h2
          subst h1; subst h2
          exact ⟨Or.inl rfl, rfl, rfl, rfl, ⟨col, hc, Or.inr (by omega)⟩⟩
        · rw [if_neg hge] at h
          cases hyy : col[y / 2]? with
          | none =>
            have hlt : y / 2 < col.length := by omega
            rw [List.getElem?_eq_getElem hlt] at hyy
            exact Option.noConfusion hyy
          | some card =>
            simp only [hyy] at h
            by_cases hh : card.hidden = true
            · rw [if_pos hh] at h
              injection h with h
              injection h with h1 h2
              subst h1; subst h2
              exact ⟨Or.inl rfl, rfl, rfl, rfl, ⟨col, hc, Or.inl rfl⟩⟩
            · rw [if_neg hh] at h
              injection h with h
              injection h with h1 h2
              subst h1; subst h2
              refine ⟨Or.inl rfl, rfl, rfl, rfl, ⟨col, hc, Or.inr ?_⟩⟩
              omega
  · rw [if_neg h39] at h
    by_cases h46 : 41 ≤ x ∧ x < 46
    · rw [if_pos h46] at h
      by_cases hy5 : y < 5
      · rw [if_pos hy5] at h
        cases hst : s.stock.getLast? with
        | some card =>
          simp only [hst] at h
          injection h with h
          injection h with h1 h2
          subst h1; subst h2
          refine ⟨Or.inr ?_, rfl, rfl, rfl, ?_⟩
          · unfold App.draw; rw [hst]
          · simp only [PosOk]
            simp
        | none =>
          simp only [hst] at h
          injection h with h
          injection h with h1 h2
          subst h1; subst h2
          exact ⟨Or.inl rfl, rfl, rfl, rfl, trivial⟩
      · rw [if_neg hy5] at h
        by_cases hy10 : y < 10
        · rw [if_pos hy10] at h
          by_cases hd0 : s.discard.length = 0
          · rw [if_pos hd0] at h
            injection h with h
            injection h with h1 h2
            subst h1; subst h2
            exact ⟨Or.inl rfl, rfl, rfl, rfl, trivial⟩
          · rw [if_neg hd0] at h
            injection h with h
            injection h with h1 h2
            subst h1; subst h2
            refine ⟨Or.inl rfl, rfl, rfl, rfl, ?_⟩
            simp only [PosOk]
            intro hnil
            rw [hnil] at hd0
            exact hd0 rfl
        · rw [if_neg hy10] at h
          by_cases hy30 : y < 30
          · rw [if_pos hy30] at h
            injection h with h
            injection h with h1 h2
            subst h1; subst h2
            refine ⟨Or.inl rfl, rfl, rfl, rfl, ?_⟩
            simp only [PosOk]
            omega
          · rw [if_neg hy30] at h
            injection h with h
            injection h with h1 h2
            subst h1; subst h2
            exact ⟨Or.inl rfl, rfl, rfl, rfl, trivial⟩
    · rw [if_neg h46] at h
      injection h with h
      injection h with h1 h2
      subst h1; subst h2
      exact ⟨Or.inl rfl, rfl, rfl, rfl, trivial⟩

lemma get_selected_pos_total (s : App) (hr : s.rows.length = 8) (x y : Nat) :
    ∃ pos s', s.get_selected_pos x y = some (pos, s') := by
  suffices hs : (s.get_selected_pos x y).isSome by
    obtain ⟨⟨pos, s'⟩, hp⟩ := Option.isSome_iff_exists.mp hs
    exact ⟨pos, s', hp⟩
  unfold App.get_selected_pos
  by_cases h39 : x ≤ 39
  · rw [if_pos h39]
    have hlt : x / 5 < s.rows.length := by omega
    cases hc : s.rows[x / 5]? with
    | none =>
      rw [List.getElem?_eq_getElem hlt] at hc
      exact Option.noConfusion hc
    | some col =>
      simp only [hc]
      by_cases h0 : col.length = 0
      · rw [if_pos h0]; rfl
      · rw [if_neg h0]
        by_cases hge : y / 2 ≥ col.length
        · rw [if_pos hge]; rfl
        · rw [if_neg hge]
          have hylt : y / 2 < col.length := by omega
          cases hyy : col[y / 2]? with
          | none =>
            rw [List.getElem?_eq_getElem hylt] at hyy
            exact Option.noConfusion hyy
          | some card =>
            simp only [hyy]
            by_cases hh : card.hidden = true
            · rw [if_pos hh]; rfl
            · rw [if_neg hh]; rfl
  · rw [if_neg h39]
    by_cases h46 : 41 ≤ x ∧ x < 46
    · rw [if_pos h46]
      by_cases hy5 : y < 5
      · rw [if_pos hy5]
        cases hst : s.stock.getLast? <;> simp [hst]
      · rw [if_neg hy5]
        by_cases hy10 : y < 10
        · rw [if_pos hy10]
          by_cases hd0 : s.discard.length = 0
          · rw [if_pos hd0]; rfl
          · rw [if_neg hd0]; rfl
        · rw [if_neg hy10]
          by_cases hy30 : y < 30
          · rw [if_pos hy30]; rfl
          · rw [if_neg hy30]; rfl
    · rw [if_neg h46]; rfl

lemma handle_move_total (s : App) (dest : SelectedPos)
    (hp4 : s.suit_piles.length = 4)
    (hsel : PosOk s s.selected_pos) (hdest : PosOk s dest) :
    ∃ t, s.handle_move dest = some t := by
  rw [← Option.isSome_iff_exists]
  cases dest with
  | none => rfl
  | discard => rfl
  | suitPile n =>
    simp only [PosOk] at hdest
    have hn : n < s.suit_piles.length := by omega
    obtain ⟨pile, hpile⟩ : ∃ pile, s.suit_piles[n]? = some pile :=
      ⟨_, List.getElem?_eq_getElem hn⟩
    cases hsrc : s.selected_pos with
    | none => simp only [App.handle_move, hsrc, Option.isSome_some]
    | suitPile m => simp only [App.handle_move, hsrc, Option.isSome_some]
    | discard =>
      rw [hsrc] at hsel
      simp only [PosOk] at hsel
      obtain ⟨card, hcard⟩ := exists_getLast?_of_ne_nil hsel
      simp only [App.handle_move, hsrc, hcard, hpile]
      split <;> rfl
    | column cx cy =>
      rw [hsrc] at hsel
      simp only [PosOk] at hsel
      obtain ⟨col, hcol, hcy⟩ := hsel
      by_cases hg : col.length = 0 ∨ col.length > cy + 1
      · simp only [App.handle_move, hsrc, hcol, if_pos hg, Option.isSome_some]
      · have hlt : cy < col.length := by omega
        obtain ⟨card, hcard⟩ : ∃ card, col[cy]? = some card :=
          ⟨_, List.getElem?_eq_getElem hlt⟩
        have hne : col ≠ [] := by
          intro hnil; subst hnil; simp at hlt
        obtain ⟨c, hlast⟩ := exists_getLast?_of_ne_nil hne
        simp only [App.handle_move, hsrc, hcol, if_neg hg, hcard, hpile, hlast]
        split <;> rfl
  | column x ydest =>
    simp only [PosOk] at hdest
    obtain ⟨dcol, hdcol, -⟩ := hdest
    cases hsrc : s.selected_pos with
    | none => simp only [App.handle_move, hsrc, Option.isSome_some]
    | discard =>
      rw [hsrc] at hsel
      simp only [PosOk] at hsel
      obtain ⟨card, hcard⟩ := exists_getLast?_of_ne_nil hsel
      simp only [App.handle_move, hsrc, hcard, hdcol]
      split <;> rfl
    | suitPile m =>
      rw [hsrc] at hsel
      simp only [PosOk] at hsel
      have hm : m < s.suit_piles.length := by omega
      obtain ⟨pile, hpile⟩ : ∃ pile, s.suit_piles[m]? = some pile :=
        ⟨_, List.getElem?_eq_getElem hm⟩
      cases hl : pile.getLast? with
      | none => simp only [App.handle_move, hsrc, hpile, hl, Option.isSome_some]
      | some card =>
        simp only [App.handle_move, hsrc, hpile, hl, hdcol]
        split <;> rfl
    | column sx sy =>
      rw [hsrc] at hsel
      simp only [PosOk] at hsel
      obtain ⟨scol, hscol, hsy⟩ := hsel
      by_cases hxx : sx = x
      · simp only [App.handle_move, hsrc, if_pos hxx, Option.isSome_some]
      · by_cases h0 : scol.length = 0
        · simp only [App.handle_move, hsrc, if_neg hxx, hscol, if_pos h0, Option.isSome_some]
        · have hlt : sy < scol.length := by omega
          obtain ⟨card, hcard⟩ : ∃ card, scol[sy]? = some card :=
            ⟨_, List.getElem?_eq_getElem hlt⟩
          simp only [App.handle_move, hsrc, if_neg hxx, hscol, if_neg h0, hcard, hdcol]
          split <;> rfl

lemma count_bridge (l : List (Nat × Nat)) (a : Nat × Nat) :
    @List.count _ instBEqOfDecidableEq a l = @List.count _ instBEqProd a l := by
  induction l with
  | nil => rfl
  | cons b t ih =>
    rw [@List.count_cons _ instBEqOfDecidableEq, @List.count_cons _ instBEqProd, ih]
    by_cases hba : b = a
    · subst hba
      simp [instBEqOfDecidableEq]
    · have h1 : (@BEq.beq _ instBEqOfDecidableEq b a) = false := by
        simp [instBEqOfDecidableEq, hba]
      have h2 : (@BEq.beq _ instBEqProd b a) = false := by
        simp_all
      rw [h1, h2]

lemma idCount_eq_count (l : List Card) (p : Nat × Nat) :
    idCount l p = @List.count _ instBEqOfDecidableEq p (l.map cardId) := by
  rw [count_bridge]
  rfl

lemma step_inv (s t : App) (h : Step s t) (hi : EngineInv s) : EngineInv t := by
  cases h with
  | keyC =>
    exact ⟨hi.rows_len, hi.piles_len, trivial, hi.uniform⟩
  | keyD => exact inv_draw s hi
  | click x y pos s' t h1 h2 =>
    obtain ⟨hss, hsel, hrows, hpiles, hpos⟩ := get_selected_pos_char s x y pos s' h1
    have hinv' : EngineInv s' := by
      rcases hss with h' | h'
      · rw [h']; exact hi
      · rw [h']; exact inv_draw s hi
    obtain ⟨hr, hp, hst⟩ := handle_move_frame s' pos t h2
    constructor
    · show t.rows.length = 8
      rw [hr]
      exact hinv'.rows_len
    · show t.suit_piles.length = 4
      rw [hp]
      exact hinv'.piles_len
    · cases pos with
      | none => trivial
      | discard =>
        have ht : t = s' := by
          have hh : s'.handle_move .discard = some s' := rfl
          rw [hh] at h2
          injection h2 with h2
          exact h2.symm
        subst ht
        simp only [PosOk] at hpos ⊢
        exact hpos
      | suitPile n =>
        simp only [PosOk] at hpos ⊢
        exact hpos
      | column cx cy =>
        simp only [PosOk] at hpos ⊢
        obtain ⟨col, hc, hy⟩ := hpos
        obtain ⟨col', hc', hlen⟩ := handle_move_col_grow s' cx cy t h2 col hc
        exact ⟨col', hc', by omega⟩
    · intro pile hpile
      exact handle_move_uniform s' pos t h2 hinv'.uniform pile hpile

lemma reachable_inv (s : App) (h : Reachable s) : EngineInv s := by
  induction h with
  | init deck hperm =>
    constructor
    · exact deal_fst_length 8 0 deck
    · rfl
    · trivial
    · intro pile hpile
      have hnil : pile = [] := by simpa [App.initWith] using hpile
      subst hnil
      intro c hc
      simp at hc
  | step hr hstep ih => exact step_inv _ _ hstep ih

lemma step_ids (s t : App) (h : Step s t) (p : Nat × Nat) :
    idCount t.allCards p = idCount s.allCards p := by
  cases h with
  | keyC => rfl
  | keyD => exact draw_ids s p
  | click x y pos s' t h1 h2 =>
    have hres : idCount s'.allCards p = idCount s.allCards p := by
      rcases (get_selected_pos_char s x y pos s' h1).1 with h' | h'
      · rw [h']
      · rw [h']; exact draw_ids s p
    have hmv := handle_move_ids s' pos t h2 p
    show idCount t.allCards p = idCount s.allCards p
    exact hmv.trans hres

lemma init_ids (deck : List Card) (hperm : deck.Perm Card.DECK) (p : Nat × Nat) :
    idCount (App.initWith deck).allCards p = idCount Card.DECK p := by
  have hd := deal_ids 8 0 deck p
  have hcnt : idCount deck p = idCount Card.DECK p := by
    rw [idCount_eq_count, idCount_eq_count]
    exact (hperm.map cardId).count_eq p
  simp only [App.allCards, App.initWith, idCount_append]
  have hnil1 : idCount [] p = 0 := rfl
  have hnil2 : idCount ([[], [], [], []] : List (List Card)).flatten p = 0 := rfl
  omega

lemma reachable_ids (s : App) (h : Reachable s) (p : Nat × Nat) :
    idCount s.allCards p = idCount Card.DECK p := by
  induction h with
  | init deck hperm => exact init_ids deck hperm p
  | step hr hstep ih => exact (step_ids _ _ hstep p).trans ih

/-! ### Concrete reachable scenarios -/

lemma step_click' (s : App) (x y : Nat) (pos : SelectedPos) (s' t u : App)
    (h1 : s.get_selected_pos x y = some (pos, s'))
    (h2 : s'.handle_move pos = some t)
    (h3 : { t with selected_pos := pos } = u) : Step s u :=
  h3 ▸ Step.click s x y pos s' t h1 h2

lemma reach_sInit : Reachable sInit :=
  Reachable.init Card.DECK (List.Perm.refl _)

lemma reach_sDrawn : Reachable sDrawn :=
  Reachable.step reach_sInit (Step.keyD sInit)

lemma reach_sSel : Reachable sSel :=
  Reachable.step reach_sDrawn
    (step_click' sDrawn 41 5 .discard sDrawn sDrawn sSel (by decide) (by decide) (by decide))

lemma reach_sFound : Reachable sFound :=
  Reachable.step reach_sSel
    (step_click' sSel 41 10 (.suitPile 0) sSel
      { sSel with discard := [], suit_piles := [[cardKD], [], [], []] } sFound
      (by decide) (by decide) (by decide))

lemma deckX_perm : deckX.Perm Card.DECK := by
  have h : Card.DECK = Card.DECK.take 5 ++ cardX :: Card.DECK.drop 6 := by decide
  rw [h]
  show (cardX :: (Card.DECK.take 5 ++ Card.DECK.drop 6)).Perm
    (Card.DECK.take 5 ++ cardX :: Card.DECK.drop 6)
  exact List.perm_middle.symm

lemma reach_sX0 : Reachable sX0 := Reachable.init deckX deckX_perm

lemma reach_sX1 : Reachable sX1 :=
  Reachable.step reach_sX0
    (step_click' sX0 5 0 (.column 1 0) sX0 sX0 sX1 (by decide) (by decide) (by decide))

lemma step_sX1_sX2 : Step sX1 sX2 :=
  step_click' sX1 0 0 (.column 0 0) sX1 sX2t sX2 (by decide) (by decide) (by decide)

/-! ### Claims -/

/-- Claim C1 (deck integrity): in every reachable game state, the
multiset of (suit, number) identities across stock, discard, the 8
columns and the 4 foundations equals the canonical 52-card identity
multiset, which holds each of the 52 identities exactly once. -/
theorem C1_deck_integrity (s : App) (h : Reachable s) :
    s.cardIds = canonicalIds ∧ canonicalIds.Nodup ∧
      Multiset.card canonicalIds = 52 := by
  refine ⟨?_, ?_, ?_⟩
  · show ((s.allCards.map cardId : List (Nat × Nat)) : Multiset (Nat × Nat))
      = ((Card.DECK.map cardId : List (Nat × Nat)) : Multiset (Nat × Nat))
    rw [Multiset.coe_eq_coe, List.perm_iff_count]
    intro a
    rw [← idCount_eq_count, ← idCount_eq_count]
    exact reachable_ids s h a
  · show (((Card.DECK.map cardId : List (Nat × Nat))) : Multiset (Nat × Nat)).Nodup
    rw [Multiset.coe_nodup]
    decide
  · decide

/-- Witness for C1 at the concrete initial state of the identity
shuffle. -/
theorem C1_deck_integrity_witness :
    sInit.cardIds = canonicalIds ∧ canonicalIds.Nodup ∧
      Multiset.card canonicalIds = 52 :=
  C1_deck_integrity sInit reach_sInit

/-- Claim C2 (panic freedom): from every reachable state, every click
resolves to some position without panicking, and feeding that position
to the move engine with the stored selection as source returns normally
(never hits an unwrap on an empty pile or an out-of-range index). -/
theorem C2_no_panic (s : App) (x y : Nat) (h : Reachable s) :
    ∃ pos s' t, s.get_selected_pos x y = some (pos, s') ∧
      s'.handle_move pos = some t := by
  have hi := reachable_inv s h
  obtain ⟨pos, s', h1⟩ := get_selected_pos_total s hi.rows_len x y
  obtain ⟨hss, hsel', hrows, hpiles, hpos⟩ := get_selected_pos_char s x y pos s' h1
  have hi' : EngineInv s' := by
    rcases hss with h' | h'
    · rw [h']; exact hi
    · rw [h']; exact inv_draw s hi
  obtain ⟨t, h2⟩ := handle_move_total s' pos hi'.piles_len hi'.sel hpos
  exact ⟨pos, s', t, h1, h2⟩

/-- Witness for C2 at the concrete initial state and the click (0, 0). -/
theorem C2_no_panic_witness :
    ∃ pos s' t, sInit.get_selected_pos 0 0 = some (pos, s') ∧
      s'.handle_move pos = some t :=
  C2_no_panic sInit 0 0 reach_sInit

/-- Counterexample to claim C3 as stated: after dealing the identity
shuffle the stock holds 16 cards, not 24 (8 columns consume
1 + 2 + ... + 8 = 36 of the 52 cards). -/
theorem C3_deal_shape_cex : (App.initWith Card.DECK).stock.length ≠ 24 := by
  decide

/-- Claim C3 as amended (deal shape): immediately after initialization
column i holds exactly i + 1 cards of which only the card at index i
(the top) is face-up, the stock holds exactly 16 cards, all face-down,
and the discard pile and all 4 foundations are empty. -/
theorem C3_deal_shape (deck : List Card) (h : deck.Perm Card.DECK) :
    DealShape (App.initWith deck) :=
  initWith_dealShape deck h

/-- Witness for the amended C3 at the identity shuffle. -/
theorem C3_deal_shape_witness : DealShape (App.initWith Card.DECK) :=
  C3_deal_shape Card.DECK (List.Perm.refl _)

/-- Claim C4 (column-placement rule): validate_col accepts a card for a
column exactly when the column is empty and the card is a King
(number 12), or the column's top card has the opposite color and its
number is the card's number plus one. -/
theorem C4_validate_col (s : App) (x : Nat) (card : Card) (col : List Card)
    (h : s.rows[x]? = some col) :
    s.validate_col x card = some true ↔
      ((col = [] ∧ card.number = 12) ∨
        ∃ last, col.getLast? = some last ∧ last.color ≠ card.color ∧
          last.number = card.number + 1) := by
  unfold App.validate_col
  rw [h]
  simp only [Option.map_some', Option.some.injEq]
  unfold validateColPile
  cases hl : col.getLast? with
  | none =>
    have hnil : col = [] := List.getLast?_eq_none_iff.mp hl
    subst hnil
    simp
  | some last =>
    have hne : col ≠ [] := by intro hh; subst hh; simp at hl
    simp [hne, Bool.and_eq_true, bne_iff_ne, beq_iff_eq]

/-- Witness for C4: a face-up queen of suit 0 is accepted on a column
topped by the king of suit 1. -/
theorem C4_validate_col_witness : W4.validate_col 0 cardQ0 = some true :=
  (C4_validate_col W4 0 cardQ0 [cardK1] (by decide)).mpr
    (Or.inr ⟨cardK1, by decide, by decide, by decide⟩)

/-- Claim C5 (foundation rule): validate_suit accepts exactly when the
foundation is empty or its top card has the same suit as the candidate
(no rank condition is checked), and consequently, in any reachable
state, once a foundation holds a card of some suit, every card the rule
accepts for that foundation has that same suit. -/
theorem C5_validate_suit (s : App) (n : Nat) (pile : List Card) (card : Card)
    (hp : s.suit_piles[n]? = some pile) :
    (s.validate_suit n card = some true ↔
      (pile = [] ∨ ∃ last, pile.getLast? = some last ∧ last.suit = card.suit)) ∧
    (Reachable s → ∀ c ∈ pile, s.validate_suit n card = some true →
      card.suit = c.suit) := by
  have hiff : s.validate_suit n card = some true ↔
      (pile = [] ∨ ∃ last, pile.getLast? = some last ∧ last.suit = card.suit) := by
    unfold App.validate_suit
    rw [hp]
    simp only [Option.map_some', Option.some.injEq]
    unfold validateSuitPile
    cases hl : pile.getLast? with
    | none =>
      have hnil : pile = [] := List.getLast?_eq_none_iff.mp hl
      subst hnil
      simp
    | some last =>
      have hne : pile ≠ [] := by intro hh; subst hh; simp at hl
       
      simp [hne, beq_iff_eq]
  refine ⟨hiff, ?_⟩
  intro hreach c hc hv
  have hu := (reachable_inv s hreach).uniform pile (List.getElem?_mem hp)
  rcases hiff.mp hv with hnil | ⟨last, hlast, hsuit⟩
  · subst hnil; simp at hc
  · have hmem : last ∈ pile := mem_of_getLast?_eq hlast
    rw [← hsuit]
    exact hu last hmem c hc

/-- Witness for C5 at the reachable state whose foundation 0 holds the
king of suit 3: the accepted queen of suit 3 has the king's suit. -/
theorem C5_validate_suit_witness : cardQD.suit = cardKD.suit :=
  (C5_validate_suit sFound 0 [cardKD] cardQD (by decide)).2
    reach_sFound cardKD (by decide) (by decide)

/-- Claim C6 (silent no-op on rejection): every rejected
(source, destination) pair — destination None or Discard, same-column
self-moves, source None, foundation-to-foundation, empty source column
or foundation, the single-card restriction, and every validation
failure — leaves the whole modelled game state unchanged. -/
theorem C6_silent_noop (s : App) :
    (s.handle_move .none = some s) ∧
    (s.handle_move .discard = some s) ∧
    (∀ sx sy y', s.selected_pos = .column sx sy →
      s.handle_move (.column sx y') = some s) ∧
    (s.selected_pos = .none → ∀ dest, s.handle_move dest = some s) ∧
    (∀ m n, s.selected_pos = .suitPile m → s.handle_move (.suitPile n) = some s) ∧
    (∀ sx sy, s.selected_pos = .column sx sy → s.rows[sx]? = some [] →
      (∀ n, s.handle_move (.suitPile n) = some s) ∧
      (∀ x y', s.handle_move (.column x y') = some s)) ∧
    (∀ m pile, s.selected_pos = .suitPile m → s.suit_piles[m]? = some pile →
      pile.getLast? = none → ∀ x y', s.handle_move (.column x y') = some s) ∧
    (∀ n card pile, s.selected_pos = .discard → s.discard.getLast? = some card →
      s.suit_piles[n]? = some pile → validateSuitPile pile card = false →
      s.handle_move (.suitPile n) = some s) ∧
    (∀ x y' card col, s.selected_pos = .discard → s.discard.getLast? = some card →
      s.rows[x]? = some col → validateColPile col card = false →
      s.handle_move (.column x y') = some s) ∧
    (∀ m x y' pile card col, s.selected_pos = .suitPile m →
      s.suit_piles[m]? = some pile → pile.getLast? = some card →
      s.rows[x]? = some col → validateColPile col card = false →
      s.handle_move (.column x y') = some s) ∧
    (∀ sx sy n scol, s.selected_pos = .column sx sy → s.rows[sx]? = some scol →
      scol.length > sy + 1 → s.handle_move (.suitPile n) = some s) ∧
    (∀ sx sy n scol c pile, s.selected_pos = .column sx sy →
      s.rows[sx]? = some scol → scol.length = sy + 1 → scol[sy]? = some c →
      s.suit_piles[n]? = some pile → validateSuitPile pile c = false →
      s.handle_move (.suitPile n) = some s) ∧
    (∀ sx sy x y' scol c dcol, s.selected_pos = .column sx sy → sx ≠ x →
      s.rows[sx]? = some scol → scol[sy]? = some c → s.rows[x]? = some dcol →
      validateColPile dcol c = false → s.handle_move (.column x y') = some s) := by
  refine ⟨rfl, rfl, ?_, ?_, ?_, ?_, ?_, ?_, ?_, ?_, ?_, ?_, ?_⟩
  · intro sx sy y' hsrc
    simp [App.handle_move, hsrc]
  · intro hsrc dest
    cases dest <;> simp [App.handle_move, hsrc]
  · intro m n hsrc
    simp [App.handle_move, hsrc]
  · intro sx sy hsrc hcol
    constructor
    · intro n
      simp [App.handle_move, hsrc, hcol]
    · intro x y'
      by_cases hxx : sx = x
      · subst hxx
        simp [App.handle_move, hsrc]
      · simp [App.handle_move, hsrc, hxx, hcol]
  · intro m pile hsrc hpile hlast x y'
    simp [App.handle_move, hsrc, hpile, hlast]
  · intro n card pile hsrc hd hp hv
    simp [App.handle_move, hsrc, hd, hp, hv]
  · intro x y' card col hsrc hd hc hv
    simp [App.handle_move, hsrc, hd, hc, hv]
  · intro m x y' pile card col hsrc hpile hlast hc hv
    simp [App.handle_move, hsrc, hpile, hlast, hc, hv]
  · intro sx sy n scol hsrc hscol hlen
    have hg : scol.length = 0 ∨ scol.length > sy + 1 := Or.inr hlen
    simp only [App.handle_move, hsrc, hscol]
    rw [if_pos hg]
  · intro sx sy n scol c pile hsrc hscol hlen hsy hp hv
    have hg : ¬(scol.length = 0 ∨ scol.length > sy + 1) := by omega
    simp only [App.handle_move, hsrc, hscol]
    rw [if_neg hg]
    simp [hsy, hp, hv]
  · intro sx sy x y' scol c dcol hsrc hxx hscol hsy hdc hv
    have h0 : ¬ scol.length = 0 := by
      have := (List.getElem?_eq_some_iff.mp hsy).1
      omega
    simp only [App.handle_move, hsrc]
    rw [if_neg hxx]
    simp [hscol, h0, hsy, hdc, hv]

/-- Witness for C6: the self-move of the selected column of W7 is a
no-op. -/
theorem C6_silent_noop_witness : W7.handle_move (.column 0 5) = some W7 :=
  (C6_silent_noop W7).2.2.1 0 1 5 rfl

/-- Claim C7 (reveal invariant): whenever an accepted move shrinks a
column (the column-to-foundation pop and the column-to-column drain are
the only operations that do), the shrunken column's new top card, if
any, is face-up. -/
theorem C7_reveal (s : App) (dest : SelectedPos) (t : App) (sx : Nat)
    (col col' : List Card) (c : Card)
    (h : s.handle_move dest = some t) (hcol : s.rows[sx]? = some col)
    (hcol' : t.rows[sx]? = some col') (hshrink : col'.length < col.length)
    (hlast : col'.getLast? = some c) : c.hidden = false := by
  rcases handle_move_cases s dest t h with ht | hm | hm | hm | hm | hm
  · subst ht
    rw [hcol] at hcol'
    injection hcol' with e
    subst e
    exact absurd hshrink (lt_irrefl _)
  · obtain ⟨n, card, pile, -, -, -, -, -, ht⟩ := hm
    subst ht
    rw [hcol] at hcol'
    injection hcol' with e
    subst e
    exact absurd hshrink (lt_irrefl _)
  · obtain ⟨n, x, y, colx, pile, cc, -, -, hcx, -, -, -, -, ht⟩ := hm
    subst ht
    by_cases hxx : sx = x
    · subst hxx
      have hxl : sx < s.rows.length := (List.getElem?_eq_some_iff.mp hcx).1
      rw [List.getElem?_set_self hxl] at hcol'
      injection hcol' with e
      subst e
      exact revealTop_getLast _ _ hlast
    · rw [List.getElem?_set_ne (fun hh => hxx hh.symm)] at hcol'
      rw [hcol] at hcol'
      injection hcol' with e
      subst e
      exact absurd hshrink (lt_irrefl _)
  · obtain ⟨x, y, card, colx, -, -, -, hcx, -, ht⟩ := hm
    subst ht
    by_cases hxx : sx = x
    · subst hxx
      have hxl : sx < s.rows.length := (List.getElem?_eq_some_iff.mp hcx).1
      rw [List.getElem?_set_self hxl] at hcol'
      rw [hcol] at hcx
      injection hcx with e
      subst e
      injection hcol' with e
      subst e
      rw [List.length_append] at hshrink
      simp at hshrink
    · rw [List.getElem?_set_ne (fun hh => hxx hh.symm)] at hcol'
      rw [hcol] at hcol'
      injection hcol' with e
      subst e
      exact absurd hshrink (lt_irrefl _)
  · obtain ⟨x, y, m, pile, card, colx, -, -, -, -, hcx, -, ht⟩ := hm
    subst ht
    by_cases hxx : sx = x
    · subst hxx
      have hxl : sx < s.rows.length := (List.getElem?_eq_some_iff.mp hcx).1
      rw [List.getElem?_set_self hxl] at hcol'
      rw [hcol] at hcx
      injection hcx with e
      subst e
      injection hcol' with e
      subst e
      rw [List.length_append] at hshrink
      simp at hshrink
    · rw [List.getElem?_set_ne (fun hh => hxx hh.symm)] at hcol'
      rw [hcol] at hcol'
      injection hcol' with e
      subst e
      exact absurd hshrink (lt_irrefl _)
  · obtain ⟨x, y, sx', sy, scol, card, dcol, -, -, hxx', hsc, -, -, hdc, -, ht⟩ := hm
    subst ht
    by_cases h1 : sx = sx'
    · subst h1
      have hxl : sx < (s.rows.set x (dcol ++ scol.drop sy)).length := by
        rw [List.length_set]
        exact (List.getElem?_eq_some_iff.mp hsc).1
      rw [List.getElem?_set_self hxl] at hcol'
      injection hcol' with e
      subst e
      exact revealTop_getLast _ _ hlast
    · rw [List.getElem?_set_ne (fun hh => h1 hh.symm)] at hcol'
      by_cases h2 : sx = x
      · subst h2
        have hxl : sx < s.rows.length := (List.getElem?_eq_some_iff.mp hdc).1
        rw [List.getElem?_set_self hxl] at hcol'
        rw [hcol] at hdc
        injection hdc with e
        subst e
        injection hcol' with e
        subst e
        rw [List.length_append] at hshrink
        have hdl : (scol.drop sy).length ≤ scol.length := by
          rw [List.length_drop]; omega
        omega
      · rw [List.getElem?_set_ne (fun hh => h2 hh.symm)] at hcol'
        rw [hcol] at hcol'
        injection hcol' with e
        subst e
        exact absurd hshrink (lt_irrefl _)

/-- Witness for C7: the accepted column-to-foundation move out of W7
leaves the remaining single card face-up. -/
theorem C7_reveal_witness : visAce.hidden = false :=
  C7_reveal W7 (.suitPile 0) W7t 0 [hiddenAce, cardAceV] [visAce] visAce
    (by decide) (by decide) (by decide) (by decide) (by decide)

/-- Claim C8 (column-to-foundation single-card restriction): with a
column source stored as Column(x, y), a move to foundation n is
accepted exactly when y is the column's last index and the foundation
rule holds for the top card, and the effect is popping that card,
pushing it on the foundation, and revealing the new column top. -/
theorem C8_column_to_foundation (s : App) (x y n : Nat) (col pile : List Card)
    (hsel : s.selected_pos = .column x y) (hcol : s.rows[x]? = some col)
    (hpile : s.suit_piles[n]? = some pile) :
    (∀ c, col.getLast? = some c → col.length = y + 1 →
      validateSuitPile pile c = true →
      s.handle_move (.suitPile n) =
        some { s with rows := s.rows.set x (revealTop col.dropLast)
                      suit_piles := s.suit_piles.set n (pile ++ [c]) }) ∧
    (∀ t, s.handle_move (.suitPile n) = some t → t ≠ s →
      col.length = y + 1 ∧ ∃ c, col.getLast? = some c ∧
        validateSuitPile pile c = true ∧
        t = { s with rows := s.rows.set x (revealTop col.dropLast)
                     suit_piles := s.suit_piles.set n (pile ++ [c]) }) := by
  constructor
  · intro c hc hlen hv
    have hg : ¬(col.length = 0 ∨ col.length > y + 1) := by omega
    have hcy : col[y]? = some c := by
      rw [getElem?_eq_getLast?_of_length col y hlen]
      exact hc
    simp only [App.handle_move, hsel, hcol]
    rw [if_neg hg]
    simp only [hcy, hpile, if_pos hv, hc]
  · intro t ht htne
    rcases handle_move_cases s (.suitPile n) t ht with h' | h' | h' | h' | h' | h'
    · exact absurd h' htne
    · obtain ⟨n', card, pile', -, hsrc, -⟩ := h'
      rw [hsel] at hsrc
      exact absurd hsrc (by simp)
    · obtain ⟨n', x', y', col2, pile2, c, hdest, hsrc, hc2, hlen2, hlast2, hp2, hv2, ht2⟩ := h'
      injection hdest with hn
      subst hn
      rw [hsel] at hsrc
      injection hsrc with hx hy
      subst hx
      subst hy
      rw [hcol] at hc2
      injection hc2 with e
      subst e
      rw [hpile] at hp2
      injection hp2 with e
      subst e
      exact ⟨hlen2, c, hlast2, hv2, ht2⟩
    · obtain ⟨x', y', card, col2, hdest, -⟩ := h'
      exact absurd hdest (by simp)
    · obtain ⟨x', y', m, pile2, card, col2, hdest, -⟩ := h'
      exact absurd hdest (by simp)
    · obtain ⟨x', y', sx, sy, scol, card, dcol, hdest, -⟩ := h'
      exact absurd hdest (by simp)

/-- Witness for C8: moving the single selected card of W8 onto the
empty foundation succeeds with the specified effect. -/
theorem C8_column_to_foundation_witness :
    W8.handle_move (.suitPile 0) =
      some { W8 with rows := W8.rows.set 0 (revealTop ([visAce].dropLast))
                     suit_piles := W8.suit_piles.set 0 ([] ++ [visAce]) } :=
  (C8_column_to_foundation W8 0 0 0 [visAce] [] rfl (by decide) (by decide)).1
    visAce (by decide) (by decide) (by decide)

/-- Claim C9 (resolver column-lane clamping): for a click in a column
lane, an empty column resolves to Column(x, 0); a card-row index at or
beyond the column's length is clamped to the last index; and a click on
a face-down card resolves to Column(x, 0); none of these mutate the
state. -/
theorem C9_resolver_clamp (s : App) (x y : Nat) (col : List Card)
    (hx : x ≤ 39) (hcol : s.rows[x / 5]? = some col) :
    (col = [] → s.get_selected_pos x y = some (.column (x / 5) 0, s)) ∧
    (col ≠ [] → col.length ≤ y / 2 →
      s.get_selected_pos x y = some (.column (x / 5) (col.length - 1), s)) ∧
    (∀ c, col[y / 2]? = some c → c.hidden = true →
      s.get_selected_pos x y = some (.column (x / 5) 0, s)) := by
  refine ⟨?_, ?_, ?_⟩
  · intro hnil
    subst hnil
    unfold App.get_selected_pos
    rw [if_pos hx]
    simp [hcol]
  · intro hne hge
    have h0 : ¬ col.length = 0 := by
      intro hh
      exact hne (List.length_eq_zero.mp hh)
    unfold App.get_selected_pos
    rw [if_pos hx]
    simp only [hcol]
    rw [if_neg h0, if_pos (by omega : y / 2 ≥ col.length)]
  · intro c hcy hhid
    have hlt : y / 2 < col.length := (List.getElem?_eq_some_iff.mp hcy).1
    unfold App.get_selected_pos
    rw [if_pos hx]
    simp only [hcol]
    rw [if_neg (by omega : ¬ col.length = 0),
      if_neg (by omega : ¬ y / 2 ≥ col.length)]
    simp only [hcy]
    rw [if_pos hhid]

/-- Witness for C9: clicking the face-down card of W9 resolves to
Column(0, 0). -/
theorem C9_resolver_clamp_witness :
    W9.get_selected_pos 0 0 = some (.column 0 0, W9) :=
  (C9_resolver_clamp W9 0 0 [hiddenAce] (by decide) (by decide)).2.2
    hiddenAce (by decide) (by decide)

/-- Claim C10 evaluated at a failing input (code bug): from a reachable
state a single click performs an accepted column-to-column move that
transfers a face-down card — the stored source Column(1, 0) points at a
face-down card (the resolver clamps face-down clicks to index 0, which
may itself be face-down), and the engine drains the whole column,
face-down card included, onto column 0. -/
theorem C10_face_down_transfer :
    ∃ (s t : App) (c : Card) (dcol col' : List Card),
      Reachable s ∧ Step s t ∧
      s.rows[0]? = some dcol ∧ t.rows[0]? = some col' ∧
      c ∉ dcol ∧ c ∈ col' ∧ c.hidden = true := by
  refine ⟨sX1, sX2, hiddenAce, [cardTwoH], [cardTwoH, hiddenAce, cardAceV],
    reach_sX1, step_sX1_sX2, ?_, ?_, ?_, ?_, rfl⟩
  · decide
  · decide
  · decide
  · decide
